import Mathlib

/-!
Verification of the `pmap` (ParallelMap) library: a Go map whose operations
(Get, Set, Update, custom functions) are all executed sequentially by a single
backend goroutine (an actor) that receives units of work over an unbuffered
channel `Op`.  We shallow-embed the state of a `ParallelMap` and the bodies of
the closures that `Get`, `Set`, `Update` and `ExecuteFunc` submit to the actor,
exactly as written in `ParallelMap.go`, and prove the spec's claims about them.

Modelling conventions:
* The Go map `map[interface{}]interface{}` is modelled as a lookup function
  `K → Option V` over parametric (comparable) key and value types; `none`
  plays the role of Go's zero value returned for an absent key.
* A unit of work (the closure submitted on the `Op` channel) is modelled by
  the inductive `UoW`; executing it yields the new state, the output sent
  back to the submitting caller over its private channel(s), and the
  `error` value the closure returns to the backend loop.
* The backend loop (`backend` in the source) executes units of work in the
  order the channel delivers them; on a non-nil error it prints the error to
  stderr and calls `os.Exit(1)`.  `backendRun` folds a delivery order (any
  interleaving of the callers' submissions) over the state.
* The caller-visible side effects of one backend iteration, in program
  order, are recorded by `backendStepActions` (channel sends, `wg.Done()`,
  the stderr write and the process exit), so ordering claims can be stated.
* `SetUpdateValueFunc` assigns the `UpdateValueFunc` field directly, without
  going through the `Op` channel; the system-level model `sysStep` therefore
  has it act immediately on the state, while accepted units of work wait in
  the (at most one, since `Op` is unbuffered) pending slot.
-/

namespace Pmap

/-- State of a `ParallelMap`: the `Map` field and the `UpdateValueFunc`
field.  The `Op` channel and the `sync.WaitGroup` are modelled by the
execution order fed to `backendRun` and by the `wgDone` action. -/
structure PState (K V : Type) where
  Map : K → Option V
  UpdateValueFunc : V → V → V

/-- The default `UpdateValueFunc` installed by `NewParallelMap`:
`func(oldValue, newValue) { return newValue }` (replace). -/
def defaultUpdateValueFunc {V : Type} : V → V → V :=
  fun _oldValue newValue => newValue

/-- The state created by `NewParallelMap`: empty map, default combinator. -/
def newParallelMap (K V : Type) : PState K V :=
  ⟨fun _ => none, defaultUpdateValueFunc⟩

/-- A unit of work: the closure each public operation submits on the `Op`
channel.  `get`, `set` and `update` close over their key/value arguments
(and over `this`, through which `update` reads `UpdateValueFunc` at
execution time).  `exec` is the caller-supplied function given to
`ExecuteFunc`; per its documented use it operates on the exposed `Map` and
returns an `error` (modelled as `Option String`). -/
inductive UoW (K V : Type) where
  | get (key : K)
  | set (key : K) (value : V)
  | update (key : K) (value : V)
  | exec (f : (K → Option V) → (K → Option V) × Option String)

/-- The Go map assignment `this.Map[key] = value`. -/
def mapSet {K V : Type} [DecidableEq K] (m : K → Option V) (k : K) (v : V) :
    K → Option V :=
  fun x => if x = k then some v else m x

/-- The payload a unit of work sends back to its submitting caller over that
caller's private channel(s): `Get` sends the looked-up value on `c1` and the
`ok` flag on `c2`; `Set`, `Update` and `ExecuteFunc` send `true` on `c`.
Note the type has no error component: no unit of work ever sends the
closure's `error` back to the caller. -/
inductive Output (V : Type) where
  | getResult (value : Option V) (ok : Bool)
  | ack
  deriving DecidableEq

/-- Execution of one unit of work by the actor, translated clause by clause
from the closure bodies in `ParallelMap.go`: the new state, the output sent
to the caller, and the `error` the closure returns to the backend loop.
`get` performs `value, ok := this.Map[key]` and changes nothing; `set`
writes unconditionally; `update` looks the key up and writes
`UpdateValueFunc(oldValue, value)` if present, `value` if absent; `exec`
runs the supplied function and passes its error through. -/
def execUoW {K V : Type} [DecidableEq K] :
    UoW K V → PState K V → PState K V × Output V × Option String
  | UoW.get key, s =>
      (s, Output.getResult (s.Map key) (s.Map key).isSome, none)
  | UoW.set key value, s =>
      (⟨mapSet s.Map key value, s.UpdateValueFunc⟩, Output.ack, none)
  | UoW.update key value, s =>
      match s.Map key with
      | some oldValue =>
          (⟨mapSet s.Map key (s.UpdateValueFunc oldValue value),
            s.UpdateValueFunc⟩, Output.ack, none)
      | none =>
          (⟨mapSet s.Map key value, s.UpdateValueFunc⟩, Output.ack, none)
  | UoW.exec f, s =>
      (⟨(f s.Map).1, s.UpdateValueFunc⟩, Output.ack, (f s.Map).2)

/-- Outcome of one backend-loop iteration: either the loop continues with
the new state, or (on a non-nil error) the error text was printed to stderr
and the process exited. -/
inductive StepResult (K V : Type) where
  | running (s : PState K V)
  | exited (stderrLine : String) (s : PState K V)

/-- One iteration of the backend loop: receive a unit of work, execute it,
and fatally exit if it returned a non-nil error. -/
def backendStep {K V : Type} [DecidableEq K] (u : UoW K V) (s : PState K V) :
    StepResult K V × Output V :=
  match execUoW u s with
  | (s1, out, none) => (StepResult.running s1, out)
  | (s1, out, some e) => (StepResult.exited e s1, out)

/-- State reached after the actor has executed a list of units of work in
the order the channel delivered them (ignoring the fatal-exit branch, which
`backendRun` accounts for). -/
def runOps {K V : Type} [DecidableEq K] :
    List (UoW K V) → PState K V → PState K V
  | [], s => s
  | u :: rest, s => runOps rest (execUoW u s).1

/-- The backend loop over a delivery order: executes units of work one at a
time, stopping with `exited` at the first unit of work that returns a
non-nil error. -/
def backendRun {K V : Type} [DecidableEq K] :
    List (UoW K V) → PState K V → StepResult K V
  | [], s => StepResult.running s
  | u :: rest, s =>
      match execUoW u s with
      | (s1, _, none) => backendRun rest s1
      | (s1, _, some e) => StepResult.exited e s1

/-- A caller- or process-visible side effect of one backend iteration, in
program order: the sends on the caller's private channels, `wg.Done()`, and
the backend's own stderr write and process exit. -/
inductive Action (V : Type) where
  | sendValue (value : Option V)
  | sendOk (ok : Bool)
  | sendAck
  | wgDone
  | stderrWrite (msg : String)
  | exitProcess (code : Nat)
  deriving DecidableEq

/-- The side effects a unit of work's closure performs, in the order its
body performs them (the `return err` statement itself is not an effect:
its value is what `execUoW` reports as the error). -/
def uowActions {K V : Type} (u : UoW K V) (s : PState K V) : List (Action V) :=
  match u with
  | UoW.get key =>
      [Action.sendValue (s.Map key), Action.sendOk (s.Map key).isSome,
       Action.wgDone]
  | UoW.set _ _ => [Action.sendAck, Action.wgDone]
  | UoW.update _ _ => [Action.sendAck, Action.wgDone]
  | UoW.exec _ => [Action.sendAck, Action.wgDone]

/-- All side effects of one backend iteration in program order: first the
closure's own effects (which unblock the caller), then — only if the
closure returned a non-nil error — the backend's stderr write and
`os.Exit(1)`. -/
def backendStepActions {K V : Type} [DecidableEq K] (u : UoW K V)
    (s : PState K V) : List (Action V) :=
  uowActions u s ++
    match (execUoW u s).2.2 with
    | none => []
    | some e => [Action.stderrWrite e, Action.exitProcess 1]

/-- Whether a unit of work is one built by `Get`, `Set` or `Update` (as
opposed to a caller-supplied `ExecuteFunc` function). -/
def UoW.isBuiltin {K V : Type} : UoW K V → Bool
  | UoW.get _ => true
  | UoW.set _ _ => true
  | UoW.update _ _ => true
  | UoW.exec _ => false

/-- A unit of work that never writes key `k`: `get` reads only; `set` and
`update` write only their own key; a custom function qualifies when it
leaves the entry at `k` unchanged on every map. -/
def leavesKey {K V : Type} (k : K) : UoW K V → Prop
  | UoW.get _ => True
  | UoW.set key _ => key ≠ k
  | UoW.update key _ => key ≠ k
  | UoW.exec f => ∀ m, (f m).1 k = m k

/-- System-level state: the `ParallelMap` state plus the (at most one,
because the `Op` channel is unbuffered) unit of work the actor has received
but not yet invoked. -/
structure SysState (K V : Type) where
  st : PState K V
  pending : Option (UoW K V)

/-- System-level events: the actor receives a unit of work from the `Op`
channel (`accept`, possible only when none is pending); the actor invokes
the pending unit of work (`runPending`); a caller thread calls
`SetUpdateValueFunc`, which assigns the field directly without going
through the `Op` channel (`setUVF`). -/
inductive Event (K V : Type) where
  | accept (u : UoW K V)
  | runPending
  | setUVF (f : V → V → V)

/-- Small-step system semantics, from the source: an accepted unit of work
is stored as received (the closure captures only `this`, key and value, not
the combinator); running it executes it against the current state, so an
`update` reads `UpdateValueFunc` at execution time; `setUVF` overwrites the
field immediately. -/
def sysStep {K V : Type} [DecidableEq K] :
    Event K V → SysState K V → SysState K V
  | Event.accept u, σ =>
      match σ.pending with
      | none => ⟨σ.st, some u⟩
      | some _ => σ
  | Event.runPending, σ =>
      match σ.pending with
      | none => σ
      | some u => ⟨(execUoW u σ.st).1, none⟩
  | Event.setUVF f, σ => ⟨⟨σ.st.Map, f⟩, σ.pending⟩

/-- Run a sequence of system-level events from the source semantics. -/
def sysRun {K V : Type} [DecidableEq K] :
    List (Event K V) → SysState K V → SysState K V
  | [], σ => σ
  | e :: rest, σ => sysRun rest (sysStep e σ)

/-- System state just after `NewParallelMap`: fresh map state, nothing
pending. -/
def sysInit (K V : Type) : SysState K V :=
  ⟨newParallelMap K V, none⟩

/-- Capture-at-accept state for the claim-C3 comparison semantics: the
pending slot additionally stores the combinator that was active when the
unit of work was accepted. -/
structure CapState (K V : Type) where
  st : PState K V
  pending : Option (UoW K V × (V → V → V))

/-- Modelled from the spec's words for comparison (claim C3): a
`SetUpdateValueFunc` call "does not retroactively affect units of work
already accepted by the actor but not yet executed", i.e. an accepted unit
of work captures the combinator active at acceptance and an `update` is
executed with that captured combinator. -/
def capStep {K V : Type} [DecidableEq K] :
    Event K V → CapState K V → CapState K V
  | Event.accept u, σ =>
      match σ.pending with
      | none => ⟨σ.st, some (u, σ.st.UpdateValueFunc)⟩
      | some _ => σ
  | Event.runPending, σ =>
      match σ.pending with
      | none => σ
      | some (u, g) => ⟨(execUoW u ⟨σ.st.Map, g⟩).1, none⟩
  | Event.setUVF f, σ => ⟨⟨σ.st.Map, f⟩, σ.pending⟩

/-- Run a sequence of system-level events in the capture-at-accept
semantics of claim C3. -/
def capRun {K V : Type} [DecidableEq K] :
    List (Event K V) → CapState K V → CapState K V
  | [], σ => σ
  | e :: rest, σ => capRun rest (capStep e σ)

/-- Capture-semantics state just after `NewParallelMap`. -/
def capInit (K V : Type) : CapState K V :=
  ⟨newParallelMap K V, none⟩

/-- Claim C3 as stated: on every event sequence from a fresh container, the
source semantics (combinator read at execution time) and the
capture-at-accept semantics the claim describes produce the same mapping.
Stated over `Nat` keys and `Int` values. -/
def claimC3Statement : Prop :=
  ∀ events : List (Event Nat Int),
    (sysRun events (sysInit Nat Int)).st.Map =
      (capRun events (capInit Nat Int)).st.Map

theorem execUoW_uvf {K V : Type} [DecidableEq K] (u : UoW K V)
    (s : PState K V) :
    ((execUoW u s).1).UpdateValueFunc = s.UpdateValueFunc := by
  cases u with
  | get key => rfl
  | set key value => rfl
  | update key value => cases hm : s.Map key <;> simp [execUoW, hm]
  | exec f => rfl

/-- C1: with exactly one active operation, after the actor processes the
unit of work of `Set(k, v)`, the unit of work of `Get(k)` answers the
caller with `(v, true)` (the value on `c1`, `true` on `c2`), from any prior
state. -/
theorem set_get_roundtrip {K V : Type} [DecidableEq K] (s : PState K V)
    (k : K) (v : V) :
    (execUoW (UoW.get k) (execUoW (UoW.set k v) s).1).2.1
      = Output.getResult (some v) true := by
  simp [execUoW, mapSet]

/-- C2: `Update(k, v)` stores `UpdateValueFunc(existingValue, v)` when `k`
is present and `v` when `k` is absent; in the absent case the resulting
mapping is the same for every installed combinator (the combinator is never
invoked). -/
theorem update_combines {K V : Type} [DecidableEq K] (s : PState K V)
    (k : K) (v : V) :
    ((execUoW (UoW.update k v) s).1).Map k
      = some (match s.Map k with
              | some w => s.UpdateValueFunc w v
              | none => v)
    ∧ (s.Map k = none → ∀ g : V → V → V,
        ((execUoW (UoW.update k v) (⟨s.Map, g⟩ : PState K V)).1).Map
          = ((execUoW (UoW.update k v) s).1).Map) := by
  constructor
  · cases hm : s.Map k <;> simp [execUoW, hm, mapSet]
  · intro hnone g
    simp [execUoW, hnone]

/-- Witness for C2 at a concrete input: key `0` is absent from the empty
map, and updating with combinator `fun a b => a + b` in place of
`fun a b => a * b` yields the same mapping. -/
theorem update_combines_witness :
    ((⟨fun _ => none, fun a b => a * b⟩ : PState Nat Int).Map 0 = none)
    ∧ ((execUoW (UoW.update 0 7)
          (⟨(⟨fun _ => none, fun a b => a * b⟩ : PState Nat Int).Map,
            fun a b => a + b⟩ : PState Nat Int)).1).Map
      = ((execUoW (UoW.update 0 7)
          (⟨fun _ => none, fun a b => a * b⟩ : PState Nat Int)).1).Map :=
  ⟨rfl,
   (update_combines (⟨fun _ => none, fun a b => a * b⟩ : PState Nat Int)
      0 7).2 rfl (fun a b => a + b)⟩

/-- C4: when the `UpdateValueFunc` is the default replace combinator from
construction, the unit of work of `Update(k, v)` produces exactly the same
state, caller output and error as the unit of work of `Set(k, v)`, from any
prior state. -/
theorem update_default_eq_set {K V : Type} [DecidableEq K] (s : PState K V)
    (k : K) (v : V) (h : s.UpdateValueFunc = defaultUpdateValueFunc) :
    (execUoW (UoW.update k v) s).1 = (execUoW (UoW.set k v) s).1
    ∧ (execUoW (UoW.update k v) s).2 = (execUoW (UoW.set k v) s).2 := by
  constructor
  · cases hm : s.Map k <;> simp [execUoW, hm, h, defaultUpdateValueFunc]
  · cases hm : s.Map k <;> simp [execUoW, hm]

/-- Witness for C4 at a concrete input: the freshly constructed map has the
default combinator, and `Update(3, 5)` then behaves as `Set(3, 5)`. -/
theorem update_default_eq_set_witness :
    ((newParallelMap Nat Int).UpdateValueFunc = defaultUpdateValueFunc)
    ∧ (execUoW (UoW.update 3 5) (newParallelMap Nat Int)).1
        = (execUoW (UoW.set 3 5) (newParallelMap Nat Int)).1
    ∧ (execUoW (UoW.update 3 5) (newParallelMap Nat Int)).2
        = (execUoW (UoW.set 3 5) (newParallelMap Nat Int)).2 :=
  ⟨rfl, (update_default_eq_set (newParallelMap Nat Int) 3 5 rfl).1,
   (update_default_eq_set (newParallelMap Nat Int) 3 5 rfl).2⟩

/-- C7: the units of work built by `Get`, `Set` and `Update` return a `nil`
error for every key, value, mapping state and installed combinator, so on
them the backend's fatal branch is never taken: the loop keeps running with
the new state. -/
theorem builtin_never_fails {K V : Type} [DecidableEq K] (u : UoW K V)
    (s : PState K V) (h : u.isBuiltin = true) :
    (execUoW u s).2.2 = none
    ∧ (backendStep u s).1 = StepResult.running (execUoW u s).1 := by
  cases u with
  | get key => exact ⟨rfl, rfl⟩
  | set key value => exact ⟨rfl, rfl⟩
  | update key value =>
      cases hm : s.Map key <;> simp [execUoW, backendStep, hm]
  | exec f => simp [UoW.isBuiltin] at h

/-- Witness for C7 at a concrete input: `Get(0)` on a fresh map. -/
theorem builtin_never_fails_witness :
    ((UoW.get 0 : UoW Nat Int).isBuiltin = true)
    ∧ (execUoW (UoW.get 0) (newParallelMap Nat Int)).2.2 = none
    ∧ (backendStep (UoW.get 0) (newParallelMap Nat Int)).1
        = StepResult.running
            (execUoW (UoW.get 0) (newParallelMap Nat Int)).1 :=
  ⟨rfl, (builtin_never_fails (UoW.get 0) (newParallelMap Nat Int) rfl).1,
   (builtin_never_fails (UoW.get 0) (newParallelMap Nat Int) rfl).2⟩

/-- C8: no built-in operation removes an entry: every key present in the
mapping before a `Get`, `Set` or `Update` unit of work executes is still
present afterwards. -/
theorem builtin_preserves_keys {K V : Type} [DecidableEq K] (u : UoW K V)
    (s : PState K V) (k : K) (hb : u.isBuiltin = true)
    (hk : (s.Map k).isSome = true) :
    (((execUoW u s).1).Map k).isSome = true := by
  cases u with
  | get key => exact hk
  | set key value =>
      simp only [execUoW, mapSet]
      by_cases hx : k = key <;> simp [hx, hk]
  | update key value =>
      cases hm : s.Map key <;>
        · simp only [execUoW, hm, mapSet]
          by_cases hx : k = key <;> simp [hx, hk]
  | exec f => simp [UoW.isBuiltin] at hb

/-- Witness for C8 at a concrete input: key `0` is present in a map sending
every key to `1`, and is still present after `Update(0, 9)`. -/
theorem builtin_preserves_keys_witness :
    ((UoW.update 0 9 : UoW Nat Int).isBuiltin = true)
    ∧ (((⟨fun _ => some 1, defaultUpdateValueFunc⟩ : PState Nat Int).Map 0).isSome
        = true)
    ∧ ((((execUoW (UoW.update 0 9)
          (⟨fun _ => some 1, defaultUpdateValueFunc⟩ : PState Nat Int)).1).Map
            0).isSome = true) :=
  ⟨rfl, rfl,
   builtin_preserves_keys (UoW.update 0 9)
     (⟨fun _ => some 1, defaultUpdateValueFunc⟩ : PState Nat Int) 0 rfl rfl⟩

/-- C6: any unit of work that returns a non-nil error makes the backend
write that error to stderr and exit the process, and the caller only ever
receives the plain acknowledgement — the error value itself is never part
of the output sent to the caller. -/
theorem failure_is_fatal {K V : Type} [DecidableEq K] (u : UoW K V)
    (s : PState K V) (e : String) (h : (execUoW u s).2.2 = some e) :
    (backendStep u s).1 = StepResult.exited e (execUoW u s).1
    ∧ Action.stderrWrite e ∈ backendStepActions u s
    ∧ Action.exitProcess 1 ∈ backendStepActions u s
    ∧ (backendStep u s).2 = Output.ack := by
  cases u with
  | get key => simp [execUoW] at h
  | set key value => simp [execUoW] at h
  | update key value => cases hm : s.Map key <;> simp [execUoW, hm] at h
  | exec f =>
      simp only [execUoW] at h
      refine ⟨?_, ?_, ?_, ?_⟩ <;>
        simp [backendStep, backendStepActions, uowActions, execUoW, h]

/-- Witness for C6 at a concrete input: a custom function that leaves the
map unchanged and fails. -/
theorem failure_is_fatal_witness :
    ((execUoW (UoW.exec fun m => (m, some ("boom")))
        (newParallelMap Nat Int)).2.2 = some ("boom"))
    ∧ (backendStep (UoW.exec fun m => (m, some ("boom")))
        (newParallelMap Nat Int)).1
        = StepResult.exited ("boom")
            (execUoW (UoW.exec fun m => (m, some ("boom")))
              (newParallelMap Nat Int)).1
    ∧ Action.stderrWrite ("boom")
        ∈ backendStepActions (UoW.exec fun m => (m, some ("boom")))
            (newParallelMap Nat Int)
    ∧ Action.exitProcess 1
        ∈ backendStepActions (UoW.exec fun m => (m, some ("boom")))
            (newParallelMap Nat Int)
    ∧ (backendStep (UoW.exec fun m => (m, some ("boom")))
        (newParallelMap Nat Int)).2 = Output.ack :=
  ⟨rfl,
   (failure_is_fatal (UoW.exec fun m => (m, some ("boom")))
      (newParallelMap Nat Int) ("boom") rfl).1,
   (failure_is_fatal (UoW.exec fun m => (m, some ("boom")))
      (newParallelMap Nat Int) ("boom") rfl).2.1,
   (failure_is_fatal (UoW.exec fun m => (m, some ("boom")))
      (newParallelMap Nat Int) ("boom") rfl).2.2.1,
   (failure_is_fatal (UoW.exec fun m => (m, some ("boom")))
      (newParallelMap Nat Int) ("boom") rfl).2.2.2⟩

/-- C10: for every function handed to `ExecuteFunc`, the first two side
effects of the backend iteration are the send on the caller's private
channel `c` (which unblocks the caller) and `wg.Done()`; when the function
returns an error, the stderr write and the process exit come strictly
after both, as positions 2 and 3 of the action list. -/
theorem exec_acks_before_error_check {K V : Type} [DecidableEq K]
    (f : (K → Option V) → (K → Option V) × Option String) (s : PState K V)
    (e : String) :
    (backendStepActions (UoW.exec f) s).take 2
      = [Action.sendAck, Action.wgDone]
    ∧ ((f s.Map).2 = some e →
        backendStepActions (UoW.exec f) s
          = [Action.sendAck, Action.wgDone, Action.stderrWrite e,
             Action.exitProcess 1]) := by
  constructor
  · cases hm : (f s.Map).2 <;>
      simp [backendStepActions, uowActions, execUoW, hm]
  · intro h
    simp [backendStepActions, uowActions, execUoW, h]

/-- Witness for C10 at a concrete input: a failing custom function on a
fresh map. -/
theorem exec_acks_before_error_check_witness :
    (((fun (m : Nat → Option Int) => (m, some ("boom")))
        (newParallelMap Nat Int).Map).2 = some ("boom"))
    ∧ (backendStepActions
        (UoW.exec fun (m : Nat → Option Int) => (m, some ("boom")))
        (newParallelMap Nat Int)).take 2
        = [Action.sendAck, Action.wgDone]
    ∧ backendStepActions
        (UoW.exec fun (m : Nat → Option Int) => (m, some ("boom")))
        (newParallelMap Nat Int)
        = [Action.sendAck, Action.wgDone, Action.stderrWrite ("boom"),
           Action.exitProcess 1] :=
  ⟨rfl,
   (exec_acks_before_error_check
      (fun (m : Nat → Option Int) => (m, some ("boom")))
      (newParallelMap Nat Int) ("boom")).1,
   (exec_acks_before_error_check
      (fun (m : Nat → Option Int) => (m, some ("boom")))
      (newParallelMap Nat Int) ("boom")).2 rfl⟩

theorem execUoW_leavesKey {K V : Type} [DecidableEq K] (u : UoW K V)
    (s : PState K V) (k : K) (h : leavesKey k u) :
    ((execUoW u s).1).Map k = s.Map k := by
  cases u with
  | get key => rfl
  | set key value =>
      simp only [execUoW, mapSet]
      rw [if_neg (fun hx => h hx.symm)]
  | update key value =>
      cases hm : s.Map key <;>
        · simp only [execUoW, hm, mapSet]
          rw [if_neg (fun hx => h hx.symm)]
  | exec f => exact h s.Map

theorem runOps_leavesKey {K V : Type} [DecidableEq K] (ops : List (UoW K V))
    (s : PState K V) (k : K) (h : ∀ u ∈ ops, leavesKey k u) :
    (runOps ops s).Map k = s.Map k := by
  induction ops generalizing s with
  | nil => rfl
  | cons u rest ih =>
      rw [runOps, ih _ (fun u1 hu => h u1 (List.mem_cons_of_mem _ hu)),
        execUoW_leavesKey u s k (h u (List.mem_cons_self _ _))]

/-- C9: for a key `k` never written — after the actor has executed any
units of work none of which writes `k`, starting from the freshly
constructed map — `Get(k)` answers the caller with the zero value (`none`
models Go's zero value for an absent key) and `false`. -/
theorem get_on_unwritten_key {K V : Type} [DecidableEq K]
    (ops : List (UoW K V)) (k : K) (h : ∀ u ∈ ops, leavesKey k u) :
    (execUoW (UoW.get k) (runOps ops (newParallelMap K V))).2.1
      = Output.getResult none false := by
  have hm : (runOps ops (newParallelMap K V)).Map k = none :=
    runOps_leavesKey ops (newParallelMap K V) k h
  simp [execUoW, hm]

/-- Witness for C9 at a concrete input: writes to keys `1` and `2`, a read
of `0` and a custom function that touches nothing leave key `0` unwritten,
and `Get(0)` then answers `(none, false)`. -/
theorem get_on_unwritten_key_witness :
    (∀ u ∈ ([UoW.set 1 4, UoW.update 2 5, UoW.get 0,
              UoW.exec (fun m => (m, none))] : List (UoW Nat Int)),
        leavesKey 0 u)
    ∧ (execUoW (UoW.get 0)
        (runOps
          ([UoW.set 1 4, UoW.update 2 5, UoW.get 0,
            UoW.exec (fun m => (m, none))] : List (UoW Nat Int))
          (newParallelMap Nat Int))).2.1
        = Output.getResult none false := by
  have h : ∀ u ∈ ([UoW.set 1 4, UoW.update 2 5, UoW.get 0,
              UoW.exec (fun m => (m, none))] : List (UoW Nat Int)),
      leavesKey 0 u := by
    intro u hu
    simp only [List.mem_cons, List.not_mem_nil, or_false] at hu
    rcases hu with rfl | rfl | rfl | rfl
    · exact fun hx => by simp at hx
    · exact fun hx => by simp at hx
    · exact trivial
    · exact fun m => rfl
  exact ⟨h, get_on_unwritten_key _ 0 h⟩

theorem execUoW_builtin_err_none {K V : Type} [DecidableEq K] (u : UoW K V)
    (s : PState K V) (h : u.isBuiltin = true) : (execUoW u s).2.2 = none := by
  cases u with
  | get key => rfl
  | set key value => rfl
  | update key value => cases hm : s.Map key <;> simp [execUoW, hm]
  | exec f => simp [UoW.isBuiltin] at h

theorem backendRun_builtin {K V : Type} [DecidableEq K]
    (ops : List (UoW K V)) (s : PState K V)
    (h : ∀ u ∈ ops, u.isBuiltin = true) :
    backendRun ops s = StepResult.running (runOps ops s) := by
  induction ops generalizing s with
  | nil => rfl
  | cons u rest ih =>
      have h1 := execUoW_builtin_err_none u s (h u (List.mem_cons_self _ _))
      rcases hx : execUoW u s with ⟨s1, out, err⟩
      rw [hx] at h1
      simp only at h1
      subst h1
      simp only [backendRun, runOps, hx]
      exact ih s1 (fun u1 hu => h u1 (List.mem_cons_of_mem _ hu))

theorem runOps_update_add (k : Nat) (ops : List (UoW Nat Int)) :
    ∀ (s : PState Nat Int) (c : Int),
      (∀ u ∈ ops, u = UoW.update k 1) →
      s.UpdateValueFunc = (fun a b => a + b) →
      s.Map k = some c →
      (runOps ops s).Map k = some (c + ops.length) := by
  induction ops with
  | nil =>
      intro s c _ _ hm
      simpa using hm
  | cons u rest ih =>
      intro s c h hf hm
      have hu : u = UoW.update k 1 := h u (List.mem_cons_self _ _)
      subst hu
      rw [runOps]
      have hexec : (execUoW (UoW.update k 1) s).1
          = ⟨mapSet s.Map k (c + 1), s.UpdateValueFunc⟩ := by
        simp [execUoW, hm, hf]
      rw [hexec]
      have hres := ih ⟨mapSet s.Map k (c + 1), s.UpdateValueFunc⟩ (c + 1)
        (fun u1 hu1 => h u1 (List.mem_cons_of_mem _ hu1)) hf
        (by simp [mapSet])
      rw [hres]
      congr 1
      simp only [List.length_cons]
      push_cast
      ring

/-- C5: with the combinator set to integer addition and key `k` initially
absent, executing the units of work of `C * M` calls of `Update(k, 1)` —
in whatever order the channel delivers them, which is the only freedom the
scheduling interleavings of `C` concurrent callers have — leaves the
backend running with exactly `C * M` stored for `k`; `Stop` (drain) then
merely waits and changes nothing. -/
theorem concurrent_updates_sum (Ccnt Mcnt : Nat) (k : Nat)
    (ops : List (UoW Nat Int)) (hC : 0 < Ccnt) (hM : 0 < Mcnt)
    (hlen : ops.length = Ccnt * Mcnt)
    (hops : ∀ u ∈ ops, u = UoW.update k 1)
    (s : PState Nat Int) (hf : s.UpdateValueFunc = fun a b => a + b)
    (hm : s.Map k = none) :
    ∃ s1, backendRun ops s = StepResult.running s1
      ∧ s1.Map k = some ((Ccnt * Mcnt : Nat) : Int) := by
  refine ⟨runOps ops s, backendRun_builtin ops s ?_, ?_⟩
  · intro u hu
    rw [hops u hu]
    rfl
  · cases ops with
    | nil =>
        have := Nat.mul_pos hC hM
        simp at hlen
        omega
    | cons u rest =>
        have hu : u = UoW.update k 1 := hops u (List.mem_cons_self _ _)
        subst hu
        rw [runOps]
        have hexec : (execUoW (UoW.update k 1) s).1
            = ⟨mapSet s.Map k 1, s.UpdateValueFunc⟩ := by
          simp [execUoW, hm]
        rw [hexec]
        have hres := runOps_update_add k rest
          ⟨mapSet s.Map k 1, s.UpdateValueFunc⟩ 1
          (fun u1 hu1 => hops u1 (List.mem_cons_of_mem _ hu1)) hf
          (by simp [mapSet])
        rw [hres]
        have hlen1 : rest.length + 1 = Ccnt * Mcnt := by
          simpa using hlen
        congr 1
        push_cast
        omega

/-- Witness for C5 at a concrete input: `C = 2` callers of `M = 3` updates
each give six `Update(0, 1)` units of work and a stored value of `6`. -/
theorem concurrent_updates_sum_witness :
    ((List.replicate 6 (UoW.update 0 1) : List (UoW Nat Int)).length = 2 * 3)
    ∧ ∃ s1, backendRun (List.replicate 6 (UoW.update 0 1))
          (⟨fun _ => none, fun a b => a + b⟩ : PState Nat Int)
          = StepResult.running s1
        ∧ s1.Map 0 = some ((2 * 3 : Nat) : Int) :=
  ⟨rfl,
   concurrent_updates_sum 2 3 0 (List.replicate 6 (UoW.update 0 1))
     (by decide) (by decide) rfl
     (fun u hu => List.eq_of_mem_replicate hu)
     (⟨fun _ => none, fun a b => a + b⟩ : PState Nat Int) rfl rfl⟩

/-- C3 is false on the code: on the event sequence where the actor executes
`Set(0, 5)`, then accepts the unit of work of `Update(0, 1)`, and
`SetUpdateValueFunc(addition)` runs before the actor invokes it, the source
semantics stores `5 + 1 = 6` (the combinator field is read at execution
time), while the capture-at-accept semantics the claim describes stores the
replace-combinator result `1`. -/
theorem setUVF_not_capture_counterexample : ¬ claimC3Statement := by
  intro h
  have h0 := congrFun
    (h [Event.accept (UoW.set 0 5), Event.runPending,
        Event.accept (UoW.update 0 1), Event.setUVF (fun a b => a + b),
        Event.runPending]) 0
  have h1 : (sysRun
      [Event.accept (UoW.set 0 5), Event.runPending,
       Event.accept (UoW.update 0 1), Event.setUVF (fun a b => a + b),
       Event.runPending] (sysInit Nat Int)).st.Map 0 = some 6 := rfl
  have h2 : (capRun
      [Event.accept (UoW.set 0 5), Event.runPending,
       Event.accept (UoW.update 0 1), Event.setUVF (fun a b => a + b),
       Event.runPending] (capInit Nat Int)).st.Map 0 = some 1 := rfl
  rw [h1, h2] at h0
  simp at h0

/-- C3 (amended): `SetUpdateValueFunc` takes effect immediately, because an
`Update` unit of work reads the `UpdateValueFunc` field when the actor
invokes it — so a combinator installed after a unit of work was accepted
but before it is executed does govern that unit of work. -/
theorem setUVF_applies_to_pending {K V : Type} [DecidableEq K]
    (σ : SysState K V) (k : K) (v w : V) (f : V → V → V)
    (hp : σ.pending = some (UoW.update k v))
    (hm : σ.st.Map k = some w) :
    (sysRun [Event.setUVF f, Event.runPending] σ).st.Map k = some (f w v) := by
  simp [sysRun, sysStep, hp, execUoW, hm, mapSet]

/-- Witness for C3's amended claim at a concrete input: a pending
`Update(0, 1)` over a map holding `5` at key `0`, with addition installed
while it is pending, stores `6`. -/
theorem setUVF_applies_to_pending_witness :
    ((⟨⟨fun _ => some 5, defaultUpdateValueFunc⟩,
        some (UoW.update 0 1)⟩ : SysState Nat Int).pending
      = some (UoW.update 0 1))
    ∧ ((⟨⟨fun _ => some 5, defaultUpdateValueFunc⟩,
        some (UoW.update 0 1)⟩ : SysState Nat Int).st.Map 0 = some 5)
    ∧ (sysRun [Event.setUVF (fun a b => a + b), Event.runPending]
        (⟨⟨fun _ => some 5, defaultUpdateValueFunc⟩,
          some (UoW.update 0 1)⟩ : SysState Nat Int)).st.Map 0 = some 6 :=
  ⟨rfl, rfl,
   setUVF_applies_to_pending
     (⟨⟨fun _ => some 5, defaultUpdateValueFunc⟩,
       some (UoW.update 0 1)⟩ : SysState Nat Int)
     0 1 5 (fun a b => a + b) rfl rfl⟩

end Pmap
